import Mathlib

/-!
Verification development for the Nextcloud artifact upload pipeline
(`src/nextcloud/NextcloudClient.ts`).

The embedding models:
* POSIX path handling (`path.normalize`/`path.resolve`/`path.join`/
  `path.dirname`) for absolute working directories, without symlinks;
* the local filesystem as a finite map from resolved absolute paths to
  entry kinds (what `existsSync`/`lstatSync` observe);
* `uploadSpec`, `zipFiles`, `upload` and `shareFile` of `NextcloudClient`,
  with externally-visible actions recorded as an effect trace;
* the share-response URL extraction with JavaScript regex semantics
  (leftmost match, greedy `.*` that does not cross newlines).
-/

namespace NC

/-! ## Character-list utilities -/

/-- `matchesAt pat s` is true when `pat` occurs at the start of `s`
(the character-level form of JavaScript's `String.startsWith`). -/
def matchesAt : List Char → List Char → Bool
  | [], _ => true
  | _ :: _, [] => false
  | p :: ps, c :: cs => p == c && matchesAt ps cs

/-- `strHasPre pat s` models JavaScript's `s.startsWith(pat)`. -/
def strHasPre (pat s : String) : Bool := matchesAt pat.toList s.toList

/-- Index of the first occurrence of `pat` in `s`, if any. -/
def firstOccur (pat : List Char) : List Char → Option Nat
  | [] => if pat.isEmpty then some 0 else none
  | c :: cs => if matchesAt pat (c :: cs) then some 0
               else (firstOccur pat cs).map (· + 1)

/-- `containsSub s sub` is true when `sub` occurs somewhere inside `s`. -/
def containsSub (s sub : String) : Bool := (firstOccur sub.toList s.toList).isSome

/-- Replace the first occurrence of `pat` by `repl`
(JavaScript's `String.replace` with a string pattern). -/
def replaceFirstL (pat repl : List Char) : List Char → List Char
  | [] => if pat.isEmpty then repl else []
  | c :: cs => if matchesAt pat (c :: cs) then repl ++ (c :: cs).drop pat.length
               else c :: replaceFirstL pat repl cs

/-- String form of `replaceFirstL`: models `s.replace(pat, repl)`. -/
def replaceFirst (s pat repl : String) : String :=
  String.mk (replaceFirstL pat.toList repl.toList s.toList)

/-! ## POSIX path model -/

/-- Split a character list at every `'/'` (separators are dropped,
empty runs become empty segments). -/
def splitSlash : List Char → List (List Char)
  | [] => [[]]
  | c :: cs =>
    if c = '/' then [] :: splitSlash cs
    else
      match splitSlash cs with
      | [] => [[c]]
      | s :: rest => (c :: s) :: rest

/-- Join segments with a single `'/'` between them. -/
def interSlash : List (List Char) → List Char
  | [] => []
  | [s] => s
  | s :: rest => s ++ '/' :: interSlash rest

/-- A segment survives POSIX normalization when it is neither empty nor
the current-directory marker. -/
def keepSeg (s : List Char) : Bool := !s.isEmpty && s ≠ ['.']

/-- The parent-directory segment. -/
def dotdot : List Char := ['.', '.']

/-- A plain path segment: nonempty, not `.` or `..`, no separator. -/
def plainSeg (s : List Char) : Bool :=
  !s.isEmpty && s ≠ ['.'] && s ≠ dotdot && !s.contains '/'

/-- Resolve `..` segments of an absolute path, clamping at the root
(as POSIX `path.resolve` does for paths above `/`). -/
def resolveSegs (segs : List (List Char)) : List (List Char) :=
  segs.foldl (fun acc s => if s = dotdot then acc.dropLast else acc ++ [s]) []

/-- Resolve `..` segments of a relative path, keeping leading `..`s
(as POSIX `path.normalize` does for relative paths). -/
def normRelSegs (segs : List (List Char)) : List (List Char) :=
  segs.foldl
    (fun acc s =>
      if s = dotdot then
        match acc.getLast? with
        | some t => if t = dotdot then acc ++ [s] else acc.dropLast
        | none => acc ++ [s]
      else acc ++ [s]) []

/-- `resolveP cwd p` models `path.resolve(path.normalize(p))` on POSIX with
absolute working directory `cwd` and no symbolic links: prepend `cwd` to a
relative path, then normalize to a canonical absolute path. -/
def resolveP (cwd p : String) : String :=
  let full := if strHasPre "/" p then p else cwd ++ "/" ++ p
  let segs := resolveSegs ((splitSlash full.toList).filter keepSeg)
  String.mk ('/' :: interSlash segs)

/-- POSIX `path.normalize` on the characters of a joined path: duplicate
separators collapse, `.`/`..` segments resolve (clamped at the root for
absolute paths, kept leading for relative ones), empty result becomes
`.`. -/
def joinNormChars (cs : List Char) : String :=
  if matchesAt ['/'] cs then
    String.mk ('/' :: interSlash (resolveSegs ((splitSlash cs).filter keepSeg)))
  else
    let segs := normRelSegs ((splitSlash cs).filter keepSeg)
    if segs.isEmpty then "." else String.mk (interSlash segs)

/-- `joinP a b` models POSIX `path.join(a, b)`: concatenate the nonempty
parts with a separator and normalize the result (trailing-slash inputs do
not occur at the modelled call sites). -/
def joinP (a b : String) : String :=
  if a = "" && b = "" then "."
  else if a = "" then joinNormChars b.toList
  else if b = "" then joinNormChars a.toList
  else joinNormChars (a.toList ++ '/' :: b.toList)

/-- `dirname p` models POSIX `path.dirname` for inputs without a trailing
separator (the only inputs at the modelled call site). -/
def dirname (p : String) : String :=
  let cs := p.toList
  if !cs.contains '/' then "."
  else
    let idx := cs.reverse.findIdx (· == '/')
    let pre := cs.take (cs.length - 1 - idx)
    if pre.isEmpty then "/" else String.mk pre

/-- First path segment of a (relative) path, after normalization-style
filtering of empty and `.` segments. -/
def firstSegment (s : String) : String :=
  String.mk (((splitSlash s.toList).filter keepSeg).headD [])

/-- `p` is a strict descendant of `root`: the prefix relation holds at a
path-separator boundary (so `/root2/f` is not a descendant of `/root`). -/
def strictDescendant (root p : String) : Bool :=
  if root = "/" then strHasPre "/" p && p ≠ "/"
  else strHasPre (root ++ "/") p

/-! ## Local filesystem model -/

/-- What `lstatSync` reports for an entry. -/
inductive EntryKind
  | file
  | dir
deriving DecidableEq

/-- The local filesystem: resolved absolute paths with their kinds.
Symbolic links are not modelled (the source's `path.resolve` performs
lexical resolution only). -/
structure FS where
  entries : List (String × EntryKind)
deriving DecidableEq

/-- Kind of the entry at (the resolution of) `p`, if it exists. -/
def FS.lookup (fs : FS) (cwd p : String) : Option EntryKind :=
  ((fs.entries.find? (fun e => e.1 == resolveP cwd p)).map (·.2))

/-- Models `fsSync.existsSync(p)` with working directory `cwd`. -/
def FS.existsAt (fs : FS) (cwd p : String) : Bool := (fs.lookup cwd p).isSome

/-- Models `fsSync.lstatSync(p).isDirectory()`. -/
def FS.isDir (fs : FS) (cwd p : String) : Bool := fs.lookup cwd p == some .dir

/-! ## `uploadSpec` (PathResolver) -/

/-- A validated file paired with its path inside the artifact namespace
(the source's `FileSpec` interface). -/
structure FileSpec where
  absolutePath : String
  uploadPath : String
deriving DecidableEq

/-- The errors `uploadSpec` throws, named by the spec's taxonomy; each
constructor carries the message of the corresponding `throw new Error`
site in the source. -/
inductive UploadError
  | invalidRoot (msg : String)
  | missingFile (msg : String)
  | pathEscapesRoot (msg : String)
deriving DecidableEq

/-- The per-candidate loop of `uploadSpec` (source lines 81-112): for each
file, check existence, skip directories (recording the debug log line),
check that the resolved path starts with the resolved root, and emit the
`FileSpec` with `uploadPath = path.join(artifact, file.replace(root, ''))`.
Returns the specifications together with the skip-log lines. -/
def uploadSpecLoop (fs : FS) (cwd root artifact : String) :
    List String → Except UploadError (List FileSpec × List String)
  | [] => .ok ([], [])
  | file :: rest =>
    if !(FS.existsAt fs cwd file) then
      .error (.missingFile ("File " ++ file ++ " does not exist"))
    else if !(FS.isDir fs cwd file) then
      if !(strHasPre root (resolveP cwd file)) then
        .error (.pathEscapesRoot
          ("The rootDirectory: " ++ root ++ " is not a parent directory of the file: "
            ++ resolveP cwd file))
      else
        match uploadSpecLoop fs cwd root artifact rest with
        | .ok (specs, logs) =>
          .ok ({ absolutePath := resolveP cwd file,
                 uploadPath := joinP artifact (replaceFirst (resolveP cwd file) root "") }
               :: specs, logs)
        | .error e => .error e
    else
      match uploadSpecLoop fs cwd root artifact rest with
      | .ok (specs, logs) =>
        .ok (specs,
          ("Removing " ++ file ++ " from rawSearchResults because it is a directory") :: logs)
      | .error e => .error e

/-- `NextcloudClient.uploadSpec` (source lines 51-114): validate the root
directory, resolve it, then run the candidate loop. -/
def uploadSpec (fs : FS) (cwd artifact rootDirectory : String) (files : List String) :
    Except UploadError (List FileSpec × List String) :=
  if !(FS.existsAt fs cwd rootDirectory) then
    .error (.invalidRoot ("this.rootDirectory " ++ rootDirectory ++ " does not exist"))
  else if !(FS.isDir fs cwd rootDirectory) then
    .error (.invalidRoot ("this.rootDirectory " ++ rootDirectory ++ " is not a valid directory"))
  else
    uploadSpecLoop fs cwd (resolveP cwd rootDirectory) artifact files

/-! ## Effect traces

Externally visible filesystem and network actions of the pipeline are
recorded in order. `deleteFile` is produced by no operation of the source
(the source contains no `unlink`/`rm` call); the constructor exists so
that deletion properties are expressible. -/

inductive Effect
  | mkdir (p : String)
  | copyFile (src dst : String)
  | zipDir (src dst : String)
  | remoteExists (p : String)
  | remoteMkcol (p : String)
  | remotePut (p : String) (src : String)
  | sharePost (p : String)
  | deleteFile (p : String)
deriving DecidableEq

/-- Whether an effect deletes a local file. -/
def Effect.isDelete : Effect → Bool
  | .deleteFile _ => true
  | _ => false

/-- Whether an effect is a remote existence check. -/
def Effect.isRemoteExists : Effect → Bool
  | .remoteExists _ => true
  | _ => false

/-- Whether an effect is a remote directory creation. -/
def Effect.isRemoteMkcol : Effect → Bool
  | .remoteMkcol _ => true
  | _ => false

/-! ## `zipFiles` and `zip` (ArchiveBuilder) -/

/-- Models `os.tmpdir()`. -/
def tmpdir : String := "/tmp"

/-- Result of `zipFiles`: the archive path and the effect trace. -/
structure ZipResult where
  archivePath : String
  effects : List Effect
deriving DecidableEq

/-- The per-spec staging step of `zipFiles` (source lines 121-129): compute
the destination path, create its directory if this session has not created
it yet (the staging area is fresh, so the `existsSync` check on a
destination directory is modelled by the list of directories created so
far), and copy the file. -/
def zipStep (artifactPath : String) (acc : List Effect × List String)
    (spec : FileSpec) : List Effect × List String :=
  let dstpath := joinP artifactPath spec.uploadPath
  let dstDir := dirname dstpath
  if acc.2.contains dstDir then
    (acc.1 ++ [Effect.copyFile spec.absolutePath dstpath], acc.2)
  else
    (acc.1 ++ [Effect.mkdir dstDir, Effect.copyFile spec.absolutePath dstpath],
     acc.2 ++ [dstDir])

/-- `NextcloudClient.zipFiles` (source lines 116-139): create the staging
directory `<tmpdir>/<guid>/artifact-<artifact>/<artifact>`, stage every
spec into it with `zipStep`, then compress the staging directory to
`<artifact>.zip` inside `<tmpdir>/<guid>/artifact-<artifact>`. -/
def zipFiles (guid artifact : String) (specs : List FileSpec) : ZipResult :=
  let tempArtifactDir := joinP tmpdir guid
  let artifactPath := joinP tempArtifactDir ("artifact-" ++ artifact)
  let stageDir := joinP artifactPath artifact
  let copies := specs.foldl (zipStep artifactPath) ([Effect.mkdir stageDir], [stageDir])
  let archivePath := joinP artifactPath (artifact ++ ".zip")
  { archivePath := archivePath
    effects := copies.1 ++ [Effect.zipDir stageDir archivePath] }

/-! ## `upload` (RemoteTransport) -/

/-- The remote WebDAV state the transport can observe: which directories
exist. -/
structure RemoteState where
  dirs : List String
deriving DecidableEq

/-- `NextcloudClient.upload` (source lines 152-180): check the per-session
container directory `/artifacts/<guid>` once, create it only when the
check reports absence, then stream the archive to
`/artifacts/<guid>/<artifact>.zip`. Returns the remote file path and the
effect trace. -/
def upload (remote : RemoteState) (guid artifact file : String) : String × List Effect :=
  let remoteFileDir := "/artifacts/" ++ guid
  let create :=
    if remote.dirs.contains remoteFileDir then []
    else [Effect.remoteMkcol remoteFileDir]
  let remoteFilePath := remoteFileDir ++ "/" ++ artifact ++ ".zip"
  (remoteFilePath,
   [Effect.remoteExists remoteFileDir] ++ create ++ [Effect.remotePut remoteFilePath file])

/-! ## `shareFile` (ShareResolver) -/

/-- The greedy capture of `.*` at a fixed start: the longest newline-free
prefix of `cs` that is immediately followed by the literal tail pattern
(JavaScript's `.` does not match newlines). -/
def captureAt (close cs : List Char) : Option (List Char) :=
  ((List.range (cs.length + 1)).reverse).findSome? (fun k =>
    if !(cs.take k).contains '\n' && matchesAt close (cs.drop k) then some (cs.take k)
    else none)

/-- Models `exec` of the regex `<url>(?<share_url>.*)<\/url>` without the
global flag: scan start positions left to right, match the literal
opening tag, then take the greedy newline-free capture followed by the
closing tag; return the capture of the first start position that admits a
match. -/
def urlRegexExec : List Char → Option (List Char)
  | [] => none
  | c :: cs =>
    if matchesAt ("<url>".toList) (c :: cs) then
      match captureAt ("</url>".toList) ((c :: cs).drop 5) with
      | some cap => some cap
      | none => urlRegexExec cs
    else urlRegexExec cs

/-- The response-parsing tail of `NextcloudClient.shareFile` (source lines
200-211): run the regex on the body; an absent match or an empty capture
(both falsy in `if (!sharableUrl)`) throws the fixed message
`Failed to parse sharable URL.`; otherwise the capture is returned. -/
def parseShareResponse (body : String) : Except String String :=
  match urlRegexExec body.toList with
  | some cap =>
    if cap.isEmpty then .error "Failed to parse sharable URL."
    else .ok (String.mk cap)
  | none => .error "Failed to parse sharable URL."

/-! ## Client state and `shareFile`'s header mutation -/

/-- The external `btoa` base64 encoder is a black box whose exact output
none of the claims depend on; it is modelled as an injective placeholder. -/
def btoa (s : String) : String := s

/-- Header maps as ordered association lists (JavaScript object
insertion-order semantics). -/
def setKey (m : List (String × String)) (kv : String × String) : List (String × String) :=
  if m.any (fun e => e.1 == kv.1) then
    m.map (fun e => if e.1 == kv.1 then (e.1, kv.2) else e)
  else m ++ [kv]

/-- `Object.assign(target, updates)`: write every update into the target
object itself and return that same object. -/
def objectAssign (target updates : List (String × String)) : List (String × String) :=
  updates.foldl setKey target

/-- The mutable fields of a `NextcloudClient` instance reachable from the
claims: the construction-time session identifier and the stored headers
object. -/
structure ClientState where
  guid : String
  headers : List (String × String)
  endpoint : String
  artifact : String
  rootDirectory : String
  username : String
  password : String
deriving DecidableEq

/-- The `NextcloudClient` constructor (source lines 23-36): `guid` is the
uuid drawn once at construction; `headers` holds only the Authorization
entry. -/
def mkClient (uuid endpoint artifact rootDirectory username password : String) : ClientState :=
  { guid := uuid
    headers := [("Authorization", "Basic " ++ btoa (username ++ ":" ++ password))]
    endpoint := endpoint
    artifact := artifact
    rootDirectory := rootDirectory
    username := username
    password := password }

instance instDecEqExcept {ε α : Type} [DecidableEq ε] [DecidableEq α] :
    DecidableEq (Except ε α) := fun a b =>
  match a, b with
  | .ok x, .ok y =>
    if h : x = y then .isTrue (by rw [h]) else .isFalse (by simp [h])
  | .error x, .error y =>
    if h : x = y then .isTrue (by rw [h]) else .isFalse (by simp [h])
  | .ok _, .error _ => .isFalse (by simp)
  | .error _, .ok _ => .isFalse (by simp)

/-- Observable outcome of one `shareFile` call: the client state after the
call, the headers sent with the request, and the parse result. -/
structure ShareOutcome where
  client : ClientState
  requestHeaders : List (String × String)
  result : Except String String
deriving DecidableEq

/-- `NextcloudClient.shareFile` (source lines 182-211): the request headers
are built by `Object.assign(this.headers, {...})`, whose target is the
stored headers object, so the stored object itself receives the two extra
entries; the response body is then parsed for the share URL. -/
def clientShareFile (c : ClientState) (responseBody : String) : ShareOutcome :=
  let merged := objectAssign c.headers
    [("OCS-APIRequest", "true"), ("Content-Type", "application/json")]
  { client := { c with headers := merged }
    requestHeaders := merged
    result := parseShareResponse responseBody }

/-! ## The pipeline `uploadFiles` -/

/-- Errors the pipeline can surface. -/
inductive PipelineError
  | path (e : UploadError)
  | shareParseFailed (msg : String)
deriving DecidableEq

/-- Outcome of one `uploadFiles` invocation: the result and the ordered
effect trace of every local and remote action performed. -/
structure RunOutcome where
  result : Except PipelineError String
  effects : List Effect
deriving DecidableEq

/-- `NextcloudClient.uploadFiles` (source lines 38-49): uploadSpec, then
zipFiles, then upload, then shareFile. The remote state and the share
endpoint's response body are the run's external inputs. A thrown
`uploadSpec` error aborts before any filesystem effect; later stages
always run in order. -/
def uploadFilesRun (fs : FS) (cwd : String) (remote : RemoteState)
    (responseBody : String) (c : ClientState) (files : List String) : RunOutcome :=
  match uploadSpec fs cwd c.artifact c.rootDirectory files with
  | .error e => { result := .error (.path e), effects := [] }
  | .ok (specs, _logs) =>
    let z := zipFiles c.guid c.artifact specs
    let up := upload remote c.guid c.artifact z.archivePath
    let effects := z.effects ++ up.2 ++ [Effect.sharePost up.1]
    match parseShareResponse responseBody with
    | .ok url => { result := .ok url, effects := effects }
    | .error m => { result := .error (.shareParseFailed m), effects := effects }

/-- The local staging directory an invocation uses
(`path.join(os.tmpdir(), this.guid)`, source line 117). -/
def stagingDir (c : ClientState) : String := joinP tmpdir c.guid

/-- The remote container directory an invocation uses
(`/artifacts/<guid>`, source line 153). -/
def remoteContainer (c : ClientState) : String := "/artifacts/" ++ c.guid

/-! ## Spec-modelled ArchiveBuilder mode (no-compression)

The no-compression mode described in the spec does not appear in
`src/nextcloud/NextcloudClient.ts` (whose `uploadFiles` always
compresses); it is modelled here from the spec's words. -/

/-- Modelled from the spec: the ArchiveBuilder operating mode (§4.2); the
no-compression mode is not implemented in `src/nextcloud/NextcloudClient.ts`. -/
inductive ArchiveMode
  | compress
  | noCompression
deriving DecidableEq

/-- Modelled from the spec: failure of the ArchiveBuilder stage (§4.2,
`IncompatibleMode` when no-compression is requested with a spec sequence
whose length is not exactly one). -/
inductive ArchiveError
  | incompatibleMode
deriving DecidableEq

/-- Modelled from the spec: the artifact the ArchiveBuilder hands to the
transport — its local path, whether it is caller-owned (exempt from
cleanup), and the staging effects performed. -/
structure BuiltArtifact where
  artifactFile : String
  callerOwned : Bool
  effects : List Effect
deriving DecidableEq

/-- Modelled from the spec: the ArchiveBuilder stage with a mode switch
(§4.2). In compress mode it behaves as the source's `zipFiles`; in
no-compression mode the spec sequence must contain exactly one entry
(`IncompatibleMode` otherwise) and the single source file's absolute path
is used directly with no staging copy, marked caller-owned. -/
def archiveBuilder (mode : ArchiveMode) (guid artifact : String)
    (specs : List FileSpec) : Except ArchiveError BuiltArtifact :=
  match mode with
  | .compress =>
    let z := zipFiles guid artifact specs
    .ok { artifactFile := z.archivePath, callerOwned := false, effects := z.effects }
  | .noCompression =>
    match specs with
    | [spec] => .ok { artifactFile := spec.absolutePath, callerOwned := true, effects := [] }
    | _ => .error .incompatibleMode

/-- Modelled from the spec: the cleanup step (§4.3) deletes the local
artifact only when compression produced it, never when it is
caller-owned. -/
def cleanupEffects (artifactFile : String) (callerOwned : Bool) : List Effect :=
  if callerOwned then [] else [Effect.deleteFile artifactFile]

/-! ## Predicates used to state the claims -/

/-- The root validation `uploadSpec` performs before the candidate loop:
the root exists and is a directory. -/
def validRoot (fs : FS) (cwd rootDirectory : String) : Bool :=
  FS.existsAt fs cwd rootDirectory && FS.isDir fs cwd rootDirectory

/-- A candidate that triggers no error in the loop: it exists and is
either a directory (skipped) or resolves to a path with the resolved root
as a string prefix (accepted). -/
def cleanCandidate (fs : FS) (cwd root f : String) : Bool :=
  FS.existsAt fs cwd f && (FS.isDir fs cwd f || strHasPre root (resolveP cwd f))

/-- The `FileSpec` the loop emits for a non-directory candidate. -/
def specOf (fs : FS) (cwd root artifact f : String) : Option FileSpec :=
  if FS.isDir fs cwd f then none
  else some { absolutePath := resolveP cwd f
              uploadPath := joinP artifact (replaceFirst (resolveP cwd f) root "") }

/-- The debug-log line the loop emits for a directory candidate. -/
def logOf (fs : FS) (cwd f : String) : Option String :=
  if FS.isDir fs cwd f then
    some ("Removing " ++ f ++ " from rawSearchResults because it is a directory")
  else none

/-! ## Helper facts about the string utilities -/

theorem matchesAt_self_append (p t : List Char) : matchesAt p (p ++ t) = true := by
  induction p with
  | nil => rfl
  | cons c cs ih => simp [matchesAt, ih]

theorem matchesAt_append_left {xs ys s : List Char} (h : matchesAt (xs ++ ys) s = true) :
    matchesAt xs s = true := by
  induction xs generalizing s with
  | nil => rfl
  | cons c cs ih =>
    cases s with
    | nil => simp [matchesAt] at h
    | cons d ds =>
      simp only [List.cons_append, matchesAt, Bool.and_eq_true] at h ⊢
      exact ⟨h.1, ih h.2⟩

theorem replaceFirstL_self_append (p t : List Char) (hp : p ≠ []) :
    replaceFirstL p [] (p ++ t) = t := by
  cases p with
  | nil => exact absurd rfl hp
  | cons c cs =>
    show replaceFirstL (c :: cs) [] (c :: (cs ++ t)) = t
    rw [replaceFirstL]
    have hm : matchesAt (c :: cs) (c :: (cs ++ t)) = true := matchesAt_self_append _ _
    simp only [hm, if_pos]
    simp

theorem splitSlash_ne_nil (cs : List Char) : splitSlash cs ≠ [] := by
  cases cs with
  | nil => simp [splitSlash]
  | cons c cs =>
    rw [splitSlash]
    by_cases h : c = '/'
    · simp [h]
    · simp only [h, if_neg, ite_false]
      cases splitSlash cs <;> simp

theorem splitSlash_no_slash {cs : List Char} (h : '/' ∉ cs) : splitSlash cs = [cs] := by
  induction cs with
  | nil => rfl
  | cons c cs ih =>
    have hc : ¬(c = '/') := fun hc => h (hc ▸ List.mem_cons_self c cs)
    have hcs : '/' ∉ cs := fun hm => h (List.mem_cons_of_mem c hm)
    rw [splitSlash, if_neg hc, ih hcs]

theorem splitSlash_append_slash {xs : List Char} (ys : List Char) (h : '/' ∉ xs) :
    splitSlash (xs ++ '/' :: ys) = xs :: splitSlash ys := by
  induction xs with
  | nil => simp [splitSlash]
  | cons c cs ih =>
    have hc : ¬(c = '/') := fun hc => h (hc ▸ List.mem_cons_self c cs)
    have hcs : '/' ∉ cs := fun hm => h (List.mem_cons_of_mem c hm)
    rw [List.cons_append, splitSlash, if_neg hc, ih hcs]

theorem splitSlash_interSlash {segs : List (List Char)} (hne : segs ≠ [])
    (h : ∀ s ∈ segs, '/' ∉ s) : splitSlash (interSlash segs) = segs := by
  induction segs with
  | nil => exact absurd rfl hne
  | cons s rest ih =>
    cases rest with
    | nil => exact splitSlash_no_slash (h s (by simp))
    | cons t ts =>
      rw [show interSlash (s :: t :: ts) = s ++ '/' :: interSlash (t :: ts) from rfl]
      rw [splitSlash_append_slash _ (h s (by simp))]
      rw [ih (by simp) (fun u hu => h u (List.mem_cons_of_mem s hu))]

theorem resolveSegs_eq_self {segs : List (List Char)} (h : ∀ s ∈ segs, s ≠ dotdot) :
    resolveSegs segs = segs := by
  have key : ∀ (l : List (List Char)), (∀ s ∈ l, s ≠ dotdot) → ∀ acc,
      l.foldl (fun acc s => if s = dotdot then acc.dropLast else acc ++ [s]) acc = acc ++ l := by
    intro l
    induction l with
    | nil => intro _ acc; simp
    | cons s rest ih =>
      intro hl acc
      have hs : ¬(s = dotdot) := hl s (by simp)
      simp only [List.foldl_cons, if_neg hs]
      rw [ih (fun u hu => hl u (List.mem_cons_of_mem s hu))]
      simp
  simpa [resolveSegs] using key segs h []

theorem normRelSegs_eq_self {segs : List (List Char)} (h : ∀ s ∈ segs, s ≠ dotdot) :
    normRelSegs segs = segs := by
  have key : ∀ (l : List (List Char)), (∀ s ∈ l, s ≠ dotdot) → ∀ acc,
      l.foldl
        (fun acc s =>
          if s = dotdot then
            match acc.getLast? with
            | some t => if t = dotdot then acc ++ [s] else acc.dropLast
            | none => acc ++ [s]
          else acc ++ [s]) acc = acc ++ l := by
    intro l
    induction l with
    | nil => intro _ acc; simp
    | cons s rest ih =>
      intro hl acc
      have hs : ¬(s = dotdot) := hl s (by simp)
      simp only [List.foldl_cons, if_neg hs]
      rw [ih (fun u hu => hl u (List.mem_cons_of_mem s hu))]
      simp
  simpa [normRelSegs] using key segs h []

theorem filter_keepSeg_eq_self {segs : List (List Char)} (h : ∀ s ∈ segs, plainSeg s = true) :
    segs.filter keepSeg = segs := by
  rw [List.filter_eq_self]
  intro s hs
  have := h s hs
  simp only [plainSeg, Bool.and_eq_true] at this
  simp [keepSeg, this.1.1.1, this.1.1.2]

theorem plainSeg_no_slash {s : List Char} (h : plainSeg s = true) : '/' ∉ s := by
  simp only [plainSeg, Bool.and_eq_true] at h
  simpa using h.2

theorem plainSeg_ne_dotdot {s : List Char} (h : plainSeg s = true) : s ≠ dotdot := by
  simp only [plainSeg, Bool.and_eq_true] at h
  simpa using h.1.2

theorem plainSeg_ne_nil {s : List Char} (h : plainSeg s = true) : s ≠ [] := by
  simp only [plainSeg, Bool.and_eq_true] at h
  simpa using h.1.1.1

/-! ## Behaviour of the `uploadSpec` candidate loop -/

theorem uploadSpecLoop_clean (fs : FS) (cwd root artifact : String) (files : List String)
    (h : ∀ f ∈ files, cleanCandidate fs cwd root f = true) :
    uploadSpecLoop fs cwd root artifact files =
      .ok (files.filterMap (specOf fs cwd root artifact), files.filterMap (logOf fs cwd)) := by
  induction files with
  | nil => rfl
  | cons f rest ih =>
    have hf := h f (by simp)
    simp only [cleanCandidate, Bool.and_eq_true, Bool.or_eq_true] at hf
    obtain ⟨hex, hrest⟩ := hf
    have ihh := ih (fun g hg => h g (List.mem_cons_of_mem f hg))
    cases hdir : FS.isDir fs cwd f with
    | true =>
      rw [uploadSpecLoop]
      simp [hex, hdir, ihh, specOf, logOf]
    | false =>
      have hp : strHasPre root (resolveP cwd f) = true := by
        rcases hrest with h1 | h1
        · rw [hdir] at h1; cases h1
        · exact h1
      rw [uploadSpecLoop]
      simp [hex, hdir, hp, ihh, specOf, logOf]

theorem uploadSpecLoop_missing (fs : FS) (cwd root artifact : String)
    (pre : List String) (f : String) (post : List String)
    (hpre : ∀ g ∈ pre, cleanCandidate fs cwd root g = true)
    (hf : FS.existsAt fs cwd f = false) :
    uploadSpecLoop fs cwd root artifact (pre ++ f :: post) =
      .error (.missingFile ("File " ++ f ++ " does not exist")) := by
  induction pre with
  | nil => rw [List.nil_append, uploadSpecLoop]; simp [hf]
  | cons g rest ih =>
    have hg := hpre g (by simp)
    simp only [cleanCandidate, Bool.and_eq_true, Bool.or_eq_true] at hg
    obtain ⟨hex, hd⟩ := hg
    have ihh := ih (fun u hu => hpre u (List.mem_cons_of_mem g hu))
    cases hdir : FS.isDir fs cwd g with
    | true =>
      rw [List.cons_append, uploadSpecLoop]
      simp [hex, hdir, ihh]
    | false =>
      have hp : strHasPre root (resolveP cwd g) = true := by
        rcases hd with h1 | h1
        · rw [hdir] at h1; cases h1
        · exact h1
      rw [List.cons_append, uploadSpecLoop]
      simp [hex, hdir, hp, ihh]

theorem uploadSpecLoop_escape (fs : FS) (cwd root artifact : String)
    (pre : List String) (f : String) (post : List String)
    (hpre : ∀ g ∈ pre, cleanCandidate fs cwd root g = true)
    (hex : FS.existsAt fs cwd f = true)
    (hdir : FS.isDir fs cwd f = false)
    (hesc : strHasPre root (resolveP cwd f) = false) :
    uploadSpecLoop fs cwd root artifact (pre ++ f :: post) =
      .error (.pathEscapesRoot
        ("The rootDirectory: " ++ root ++ " is not a parent directory of the file: "
          ++ resolveP cwd f)) := by
  induction pre with
  | nil => rw [List.nil_append, uploadSpecLoop]; simp [hex, hdir, hesc]
  | cons g rest ih =>
    have hg := hpre g (by simp)
    simp only [cleanCandidate, Bool.and_eq_true, Bool.or_eq_true] at hg
    obtain ⟨hgex, hd⟩ := hg
    have ihh := ih (fun u hu => hpre u (List.mem_cons_of_mem g hu))
    cases hgdir : FS.isDir fs cwd g with
    | true =>
      rw [List.cons_append, uploadSpecLoop]
      simp [hgex, hgdir, ihh]
    | false =>
      have hp : strHasPre root (resolveP cwd g) = true := by
        rcases hd with h1 | h1
        · rw [hgdir] at h1; cases h1
        · exact h1
      rw [List.cons_append, uploadSpecLoop]
      simp [hgex, hgdir, hp, ihh]

theorem uploadSpecLoop_ok_pre (fs : FS) (cwd root artifact : String) :
    ∀ (files : List String) (specs : List FileSpec) (logs : List String),
      uploadSpecLoop fs cwd root artifact files = .ok (specs, logs) →
      ∀ sp ∈ specs, strHasPre root sp.absolutePath = true := by
  intro files
  induction files with
  | nil =>
    intro specs logs h sp hsp
    rw [uploadSpecLoop] at h
    simp only [Except.ok.injEq, Prod.mk.injEq] at h
    rw [← h.1] at hsp
    simp at hsp
  | cons file rest ih =>
    intro specs logs h sp hsp
    rw [uploadSpecLoop] at h
    cases hex : FS.existsAt fs cwd file with
    | false => rw [hex] at h; simp at h
    | true =>
      rw [hex] at h
      cases hdir : FS.isDir fs cwd file with
      | true =>
        rw [hdir] at h
        simp only [Bool.not_true, Bool.false_eq_true, if_false, Bool.not_false, if_true] at h
        cases hrec : uploadSpecLoop fs cwd root artifact rest with
        | error e => rw [hrec] at h; simp at h
        | ok p =>
          rw [hrec] at h
          obtain ⟨specs', logs'⟩ := p
          simp only [Except.ok.injEq, Prod.mk.injEq] at h
          rw [← h.1] at hsp
          exact ih specs' logs' hrec sp hsp
      | false =>
        rw [hdir] at h
        cases hesc : strHasPre root (resolveP cwd file) with
        | false => rw [hesc] at h; simp at h
        | true =>
          rw [hesc] at h
          simp only [Bool.not_true, Bool.false_eq_true, if_false, Bool.not_false, if_true] at h
          cases hrec : uploadSpecLoop fs cwd root artifact rest with
          | error e => rw [hrec] at h; simp at h
          | ok p =>
            rw [hrec] at h
            obtain ⟨specs', logs'⟩ := p
            simp only [Except.ok.injEq, Prod.mk.injEq] at h
            rw [← h.1] at hsp
            rcases List.mem_cons.mp hsp with h1 | h1
            · rw [h1]; exact hesc
            · exact ih specs' logs' hrec sp h1

/-! ## No operation of the pipeline deletes a local file -/

theorem zipStep_no_delete (ap : String) (acc : List Effect × List String) (sp : FileSpec) :
    ((zipStep ap acc sp).1.filter Effect.isDelete) = acc.1.filter Effect.isDelete := by
  rw [zipStep]
  by_cases h : dirname (joinP ap sp.uploadPath) ∈ acc.2
  · simp [h, List.filter_append, Effect.isDelete]
  · simp [h, List.filter_append, Effect.isDelete]

theorem foldl_zipStep_no_delete (ap : String) (specs : List FileSpec) :
    ∀ acc : List Effect × List String,
      ((specs.foldl (zipStep ap) acc).1.filter Effect.isDelete) =
        acc.1.filter Effect.isDelete := by
  induction specs with
  | nil => intro acc; rfl
  | cons sp rest ih =>
    intro acc
    rw [List.foldl_cons, ih (zipStep ap acc sp), zipStep_no_delete]

theorem zipFiles_no_delete (guid artifact : String) (specs : List FileSpec) :
    ((zipFiles guid artifact specs).effects.filter Effect.isDelete) = [] := by
  rw [zipFiles]
  simp only [List.filter_append, foldl_zipStep_no_delete]
  simp [Effect.isDelete]

theorem upload_no_delete (remote : RemoteState) (guid artifact file : String) :
    ((upload remote guid artifact file).2.filter Effect.isDelete) = [] := by
  rw [upload]
  by_cases h : remote.dirs.contains ("/artifacts/" ++ guid)
  · simp [h, Effect.isDelete]
  · simp [h, Effect.isDelete]

/-! ## Facts about the path operations -/

theorem str_ne_empty_of_data {s : String} (h : s.toList ≠ []) : s ≠ "" := by
  intro he
  rw [he] at h
  exact h rfl

theorem keepSeg_of_plain {s : List Char} (h : plainSeg s = true) : keepSeg s = true := by
  simp only [plainSeg, Bool.and_eq_true] at h
  simp [keepSeg, h.1.1.1, h.1.1.2]

theorem strHasPre_self_append (r s : String) : strHasPre r (r ++ s) = true := by
  rw [strHasPre]
  show matchesAt r.data (r ++ s).data = true
  rw [String.data_append]
  exact matchesAt_self_append _ _

theorem strictDescendant_strHasPre {root p : String} (h : strictDescendant root p = true) :
    strHasPre root p = true := by
  rw [strictDescendant] at h
  by_cases hr : root = "/"
  · rw [if_pos hr] at h
    rw [hr]
    exact (Bool.and_eq_true _ _ |>.mp h).1
  · rw [if_neg hr] at h
    rw [strHasPre] at h ⊢
    have : (root ++ "/").toList = root.toList ++ ['/'] := by
      show (root ++ "/").data = root.data ++ ['/']
      rw [String.data_append]
    rw [this] at h
    exact matchesAt_append_left h

theorem replaceFirst_strip {r b : String} (hr : r ≠ "") :
    replaceFirst (r ++ b) r "" = b := by
  apply String.ext
  show (replaceFirstL r.data [] (r ++ b).data) = b.data
  rw [String.data_append]
  exact replaceFirstL_self_append r.data b.data (fun h => hr (String.ext h))

theorem matchesAt_slash_plain {al : List Char} (tail : List Char)
    (ha : plainSeg al = true) : matchesAt ['/'] (al ++ tail) = false := by
  have hnoslash : '/' ∉ al := plainSeg_no_slash ha
  cases al with
  | nil => exact absurd rfl (plainSeg_ne_nil ha)
  | cons c cs =>
    have hc : ¬('/' = c) := fun hc => hnoslash (by rw [← hc]; exact List.mem_cons_self _ _)
    simp [matchesAt, hc]

theorem joinNormChars_plain (al : List Char) (relsegs : List (List Char))
    (ha : plainSeg al = true) (hne : relsegs ≠ [])
    (hp : ∀ s ∈ relsegs, plainSeg s = true) :
    joinNormChars (al ++ '/' :: '/' :: interSlash relsegs) =
      String.mk (interSlash (al :: relsegs)) := by
  have hnoslash : '/' ∉ al := plainSeg_no_slash ha
  rw [joinNormChars]
  rw [matchesAt_slash_plain _ ha]
  have hsplit : splitSlash (al ++ '/' :: '/' :: interSlash relsegs) =
      al :: [] :: relsegs := by
    rw [splitSlash_append_slash _ hnoslash]
    rw [show splitSlash ('/' :: interSlash relsegs) = [] :: splitSlash (interSlash relsegs)
      from by rw [splitSlash]; simp]
    rw [splitSlash_interSlash hne (fun s hs => plainSeg_no_slash (hp s hs))]
  rw [hsplit]
  have hfilter : (al :: ([] : List Char) :: relsegs).filter keepSeg = al :: relsegs := by
    rw [List.filter_cons_of_pos (keepSeg_of_plain ha)]
    rw [List.filter_cons_of_neg (by simp [keepSeg])]
    rw [filter_keepSeg_eq_self hp]
  rw [hfilter]
  rw [normRelSegs_eq_self (fun s hs => by
    rcases List.mem_cons.mp hs with h1 | h1
    · rw [h1]; exact plainSeg_ne_dotdot ha
    · exact plainSeg_ne_dotdot (hp s h1))]
  simp

theorem joinP_plain_rel (al : List Char) (relsegs : List (List Char))
    (ha : plainSeg al = true) (hne : relsegs ≠ [])
    (hp : ∀ s ∈ relsegs, plainSeg s = true) :
    joinP (String.mk al) (String.mk ('/' :: interSlash relsegs)) =
      String.mk (interSlash (al :: relsegs)) := by
  have hane : String.mk al ≠ "" := str_ne_empty_of_data (plainSeg_ne_nil ha)
  have hbne : String.mk ('/' :: interSlash relsegs) ≠ "" := by
    intro h
    have := congrArg String.data h
    simp at this
  rw [joinP]
  rw [if_neg (by simp [hane])]
  rw [if_neg hane, if_neg hbne]
  exact joinNormChars_plain al relsegs ha hne hp

theorem interSlash_cons_of_ne_nil {s : List Char} {rest : List (List Char)} (h : rest ≠ []) :
    interSlash (s :: rest) = s ++ '/' :: interSlash rest := by
  cases rest with
  | nil => exact absurd rfl h
  | cons t ts => rfl

theorem joinP_plain_eq_append (a : String) (relsegs : List (List Char))
    (ha : plainSeg a.toList = true) (hne : relsegs ≠ [])
    (hp : ∀ s ∈ relsegs, plainSeg s = true) :
    joinP a (String.mk ('/' :: interSlash relsegs)) =
      a ++ "/" ++ String.mk (interSlash relsegs) := by
  have key := joinP_plain_rel a.toList relsegs ha hne hp
  have h2 : String.mk (interSlash (a.toList :: relsegs)) =
      a ++ "/" ++ String.mk (interSlash relsegs) := by
    apply String.ext
    show interSlash (a.toList :: relsegs) = (a ++ "/" ++ String.mk (interSlash relsegs)).data
    rw [String.data_append, String.data_append]
    rw [interSlash_cons_of_ne_nil hne]
    simp [String.toList]
  exact key.trans h2

theorem firstSegment_plain (a : String) (relsegs : List (List Char))
    (ha : plainSeg a.toList = true) (hne : relsegs ≠ [])
    (hp : ∀ s ∈ relsegs, plainSeg s = true) :
    firstSegment (a ++ "/" ++ String.mk (interSlash relsegs)) = a := by
  rw [firstSegment]
  have hdata : (a ++ "/" ++ String.mk (interSlash relsegs)).toList =
      a.toList ++ '/' :: interSlash relsegs := by
    show (a ++ "/" ++ String.mk (interSlash relsegs)).data = _
    rw [String.data_append, String.data_append]
    simp [String.toList]
  rw [hdata]
  rw [splitSlash_append_slash _ (plainSeg_no_slash ha)]
  rw [splitSlash_interSlash hne (fun s hs => plainSeg_no_slash (hp s hs))]
  rw [List.filter_cons_of_pos (keepSeg_of_plain ha)]
  rw [List.headD_cons]
  rfl

theorem resolveP_ne_empty (cwd p : String) : resolveP cwd p ≠ "" := by
  intro h
  have h2 := congrArg String.data h
  rw [resolveP] at h2
  simp at h2

theorem str_append_cancel_left {p a b : String} (h : p ++ a = p ++ b) : a = b := by
  apply String.ext
  have h2 := congrArg String.data h
  rw [String.data_append, String.data_append] at h2
  exact List.append_cancel_left h2

theorem joinP_tmpdir_plain (g : String) (hg : plainSeg g.toList = true) :
    joinP tmpdir g = "/tmp/" ++ g := by
  have hgne : g ≠ "" := str_ne_empty_of_data (plainSeg_ne_nil hg)
  rw [joinP]
  rw [if_neg (by simp [tmpdir])]
  rw [if_neg (by simp [tmpdir])]
  rw [if_neg hgne]
  show joinNormChars ('/' :: 't' :: 'm' :: 'p' :: '/' :: g.toList) = "/tmp/" ++ g
  rw [joinNormChars]
  rw [if_pos (by simp [matchesAt])]
  have h1 : splitSlash ('/' :: 't' :: 'm' :: 'p' :: '/' :: g.toList) =
      [] :: ['t', 'm', 'p'] :: [g.toList] := by
    rw [show ('/' :: 't' :: 'm' :: 'p' :: '/' :: g.toList) =
        [] ++ '/' :: (['t', 'm', 'p'] ++ '/' :: g.toList) from by simp]
    rw [splitSlash_append_slash _ (by decide)]
    rw [splitSlash_append_slash _ (by decide)]
    rw [splitSlash_no_slash (plainSeg_no_slash hg)]
  rw [h1]
  rw [List.filter_cons_of_neg (by decide)]
  rw [List.filter_cons_of_pos (by decide)]
  rw [List.filter_cons_of_pos (keepSeg_of_plain hg)]
  rw [List.filter_nil]
  rw [resolveSegs_eq_self (fun s hs => by
    rcases List.mem_cons.mp hs with h2 | h2
    · rw [h2]; decide
    · rcases List.mem_cons.mp h2 with h3 | h3
      · rw [h3]; exact plainSeg_ne_dotdot hg
      · simp at h3)]
  apply String.ext
  show ('/' :: interSlash [['t', 'm', 'p'], g.toList]) = ("/tmp/" ++ g).data
  rw [String.data_append]
  rw [show interSlash [['t', 'm', 'p'], g.toList] = ['t', 'm', 'p'] ++ '/' :: g.toList from rfl]
  simp [String.toList]

theorem length_filterMap_specOf (fs : FS) (cwd root artifact : String) (files : List String) :
    (files.filterMap (specOf fs cwd root artifact)).length =
      (files.filter (fun f => !FS.isDir fs cwd f)).length := by
  induction files with
  | nil => rfl
  | cons f rest ih =>
    cases hdir : FS.isDir fs cwd f with
    | true => simp [List.filterMap_cons, List.filter_cons, specOf, hdir, ih]
    | false => simp [List.filterMap_cons, List.filter_cons, specOf, hdir, ih]

/-! ## Claims -/

/-- C1 is false as stated: with root `/root` and an existing candidate file
`/root2/f.txt`, the resolved candidate does not have the resolved root as a
prefix at a separator boundary, yet `uploadSpec` accepts it (the source's
`file.startsWith(root)` passes) instead of failing with `PathEscapesRoot`,
and the accepted `absolutePath` is not a strict descendant of the root. -/
theorem C1_counterexample :
    uploadSpec ⟨[("/root", .dir), ("/root2/f.txt", .file)]⟩ "/" "art" "/root" ["/root2/f.txt"] =
      .ok ([{ absolutePath := "/root2/f.txt", uploadPath := "art/2/f.txt" }], [])
    ∧ strictDescendant "/root" "/root2/f.txt" = false := ⟨rfl, rfl⟩

/-- C1 (amended): the containment check of `uploadSpec` is a plain string
prefix test on the resolved paths, with no separator-boundary
verification: a candidate whose resolved path lacks the resolved root as a
string prefix is rejected with `PathEscapesRoot` (stated for the first
offending candidate after well-behaved ones), and every accepted
`FileSpec`'s `absolutePath` is guaranteed only to have the resolved root
as a string prefix — not to be a strict descendant of it. -/
theorem C1_amended_thm (fs : FS) (cwd artifact rd : String) :
    (∀ (pre : List String) (f : String) (post : List String),
      validRoot fs cwd rd = true →
      (∀ g ∈ pre, cleanCandidate fs cwd (resolveP cwd rd) g = true) →
      FS.existsAt fs cwd f = true →
      FS.isDir fs cwd f = false →
      strHasPre (resolveP cwd rd) (resolveP cwd f) = false →
      uploadSpec fs cwd artifact rd (pre ++ f :: post) =
        .error (.pathEscapesRoot
          ("The rootDirectory: " ++ resolveP cwd rd ++
            " is not a parent directory of the file: " ++ resolveP cwd f)))
    ∧ (∀ (files : List String) (specs : List FileSpec) (logs : List String),
      uploadSpec fs cwd artifact rd files = .ok (specs, logs) →
      ∀ sp ∈ specs, strHasPre (resolveP cwd rd) sp.absolutePath = true) := by
  constructor
  · intro pre f post hroot hpre hex hdir hesc
    rw [validRoot, Bool.and_eq_true] at hroot
    rw [uploadSpec]
    simp only [hroot.1, hroot.2, Bool.not_true, Bool.false_eq_true, if_false]
    exact uploadSpecLoop_escape fs cwd (resolveP cwd rd) artifact pre f post hpre hex hdir hesc
  · intro files specs logs h sp hsp
    rw [uploadSpec] at h
    cases hex : FS.existsAt fs cwd rd with
    | false => rw [hex] at h; simp at h
    | true =>
      rw [hex] at h
      cases hdir : FS.isDir fs cwd rd with
      | false => rw [hdir] at h; simp at h
      | true =>
        rw [hdir] at h
        simp only [Bool.not_true, Bool.false_eq_true, if_false] at h
        exact uploadSpecLoop_ok_pre fs cwd (resolveP cwd rd) artifact files specs logs h sp hsp

/-- C1 witness: with root `/a/b` and candidate `/a/c/f.txt`, the resolved
candidate lacks the resolved root as a string prefix and `uploadSpec`
fails with `PathEscapesRoot`. -/
theorem C1_witness :
    uploadSpec ⟨[("/a/b", .dir), ("/a/c/f.txt", .file)]⟩ "/" "art" "/a/b" ["/a/c/f.txt"] =
      .error (.pathEscapesRoot
        "The rootDirectory: /a/b is not a parent directory of the file: /a/c/f.txt") :=
  (C1_amended_thm ⟨[("/a/b", .dir), ("/a/c/f.txt", .file)]⟩ "/" "art" "/a/b").1
    [] "/a/c/f.txt" [] (by rfl) (by simp) (by rfl) (by rfl) (by rfl)

/-- C2 is false as stated: on a body with no `<url>` tag, `shareFile`
throws the fixed message `Failed to parse sharable URL.`, which does not
include the raw response body (the body is only written to the debug log,
not carried in the failure). -/
theorem C2_counterexample :
    parseShareResponse "<ocs><data></data></ocs>" = .error "Failed to parse sharable URL."
    ∧ containsSub "Failed to parse sharable URL." "<ocs><data></data></ocs>" = false :=
  ⟨rfl, rfl⟩

/-- C2 (amended): given the spec's example body, `shareFile` returns
exactly the captured share URL; whenever the regex finds no match or
captures the empty string, it fails — but with the fixed message
`Failed to parse sharable URL.`, which does not carry the response body. -/
theorem C2_amended_thm :
    parseShareResponse "<ocs><data><url>https://cloud.example/s/abc123</url></data></ocs>" =
      .ok "https://cloud.example/s/abc123"
    ∧ (∀ body : String, urlRegexExec body.toList = none →
        parseShareResponse body = .error "Failed to parse sharable URL.")
    ∧ (∀ body : String, urlRegexExec body.toList = some [] →
        parseShareResponse body = .error "Failed to parse sharable URL.") := by
  refine ⟨by rfl, ?_, ?_⟩
  · intro body h
    rw [parseShareResponse, h]
  · intro body h
    rw [parseShareResponse, h]
    rfl

/-- C2 witness: a body with no `<url>` tag fails with the fixed parse
message, and a body with an empty capture fails likewise. -/
theorem C2_witness :
    parseShareResponse "<ocs>nothing here</ocs>" = .error "Failed to parse sharable URL."
    ∧ parseShareResponse "<url></url>" = .error "Failed to parse sharable URL." :=
  ⟨C2_amended_thm.2.1 "<ocs>nothing here</ocs>" (by rfl),
   C2_amended_thm.2.2 "<url></url>" (by rfl)⟩

/-- C3 is false as stated: a fully successful pipeline run over a
compression-produced artifact (the trace contains the `zipDir` compression
step and the `remotePut` transfer, and the run returns the share URL)
performs no deletion at all — the local archive is never deleted. -/
theorem C3_counterexample :
    uploadFilesRun ⟨[("/work", .dir), ("/work/a.txt", .file)]⟩ "/" ⟨[]⟩
        "<ocs><url>https://c.e/s/x</url></ocs>"
        (mkClient "g1" "http://e" "art" "/work" "u" "p") ["/work/a.txt"] =
      { result := .ok "https://c.e/s/x"
        effects := [.mkdir "/tmp/g1/artifact-art/art",
                    .copyFile "/work/a.txt" "/tmp/g1/artifact-art/art/a.txt",
                    .zipDir "/tmp/g1/artifact-art/art" "/tmp/g1/artifact-art/art.zip",
                    .remoteExists "/artifacts/g1",
                    .remoteMkcol "/artifacts/g1",
                    .remotePut "/artifacts/g1/art.zip" "/tmp/g1/artifact-art/art.zip",
                    .sharePost "/artifacts/g1/art.zip"] }
    ∧ ([Effect.mkdir "/tmp/g1/artifact-art/art",
        .copyFile "/work/a.txt" "/tmp/g1/artifact-art/art/a.txt",
        .zipDir "/tmp/g1/artifact-art/art" "/tmp/g1/artifact-art/art.zip",
        .remoteExists "/artifacts/g1",
        .remoteMkcol "/artifacts/g1",
        .remotePut "/artifacts/g1/art.zip" "/tmp/g1/artifact-art/art.zip",
        .sharePost "/artifacts/g1/art.zip"].filter Effect.isDelete) = [] :=
  ⟨rfl, rfl⟩

/-- C3 (amended): the pipeline never deletes any local file on any exit
path — the effect trace of every `uploadFiles` invocation, successful or
failed, contains no deletion, so the compression-produced archive simply
remains in the session's temporary staging directory. -/
theorem C3_amended_thm (fs : FS) (cwd : String) (remote : RemoteState)
    (responseBody : String) (c : ClientState) (files : List String) :
    ((uploadFilesRun fs cwd remote responseBody c files).effects.filter Effect.isDelete) = [] := by
  rw [uploadFilesRun]
  cases h : uploadSpec fs cwd c.artifact c.rootDirectory files with
  | error e => simp
  | ok p =>
    obtain ⟨specs, logs⟩ := p
    cases h2 : parseShareResponse responseBody with
    | ok url =>
      simp [List.filter_append, zipFiles_no_delete, upload_no_delete, Effect.isDelete]
    | error m =>
      simp [List.filter_append, zipFiles_no_delete, upload_no_delete, Effect.isDelete]

/-- C4: (spec-modelled, the mode is absent from the source) in
no-compression mode the ArchiveBuilder fails with `IncompatibleMode`
unless the spec sequence has exactly one entry; with exactly one entry the
caller-owned file's absolute path is used directly as the artifact, no
staging effect occurs, and the cleanup step never deletes a caller-owned
artifact. -/
theorem C4_thm (guid artifact : String) :
    (∀ specs : List FileSpec, specs.length ≠ 1 →
      archiveBuilder .noCompression guid artifact specs = .error .incompatibleMode)
    ∧ (∀ sp : FileSpec,
      archiveBuilder .noCompression guid artifact [sp] =
        .ok { artifactFile := sp.absolutePath, callerOwned := true, effects := [] }
      ∧ cleanupEffects sp.absolutePath true = []) := by
  constructor
  · intro specs h
    cases specs with
    | nil => rfl
    | cons a rest =>
      cases rest with
      | nil => simp at h
      | cons b r2 => rfl
  · intro sp
    exact ⟨rfl, rfl⟩

/-- C4 witness: two input files fail with `IncompatibleMode`; a single
input file is used directly, caller-owned, with no staging effects. -/
theorem C4_witness :
    archiveBuilder .noCompression "g" "art"
      [{ absolutePath := "/x", uploadPath := "art/x" },
       { absolutePath := "/y", uploadPath := "art/y" }] = .error .incompatibleMode
    ∧ archiveBuilder .noCompression "g" "art" [{ absolutePath := "/x", uploadPath := "art/x" }] =
      .ok { artifactFile := "/x", callerOwned := true, effects := [] } :=
  ⟨(C4_thm "g" "art").1 _ (by decide),
   ((C4_thm "g" "art").2 { absolutePath := "/x", uploadPath := "art/x" }).1⟩

/-- C5 is false as stated: with root `/xa`, accepted candidate
`/xa../file` (a string-prefix false positive) and artifact `art`, the
stripped remainder is `../file` and `path.join` collapses the `..`
segment, producing uploadPath `file`, which does not begin with the
artifact name as its first path segment. -/
theorem C5_counterexample :
    uploadSpec ⟨[("/xa", .dir), ("/xa../file", .file)]⟩ "/" "art" "/xa" ["/xa../file"] =
      .ok ([{ absolutePath := "/xa../file", uploadPath := "file" }], [])
    ∧ firstSegment "file" ≠ "art" := ⟨rfl, by decide⟩

/-- C5 (amended): for every accepted candidate that is a strict descendant
of the resolved root (resolved path = root ++ `/`-separated plain
segments), the `uploadPath` is exactly the artifact name joined with the
root-stripped relative path, and it begins with the artifact name as its
first path segment. -/
theorem C5_amended_thm (fs : FS) (cwd artifact rd f : String) (relsegs : List (List Char))
    (ha : plainSeg artifact.toList = true)
    (hroot : validRoot fs cwd rd = true)
    (hex : FS.existsAt fs cwd f = true)
    (hdir : FS.isDir fs cwd f = false)
    (hdec : resolveP cwd f = resolveP cwd rd ++ String.mk ('/' :: interSlash relsegs))
    (hne : relsegs ≠ [])
    (hp : ∀ s ∈ relsegs, plainSeg s = true) :
    uploadSpec fs cwd artifact rd [f] =
      .ok ([{ absolutePath := resolveP cwd f,
              uploadPath := artifact ++ "/" ++ String.mk (interSlash relsegs) }], [])
    ∧ firstSegment (artifact ++ "/" ++ String.mk (interSlash relsegs)) = artifact := by
  have hpre : strHasPre (resolveP cwd rd) (resolveP cwd f) = true := by
    rw [hdec]
    exact strHasPre_self_append _ _
  have hjoin : joinP artifact (replaceFirst (resolveP cwd f) (resolveP cwd rd) "") =
      artifact ++ "/" ++ String.mk (interSlash relsegs) := by
    rw [hdec, replaceFirst_strip (resolveP_ne_empty cwd rd)]
    exact joinP_plain_eq_append artifact relsegs ha hne hp
  constructor
  · rw [validRoot, Bool.and_eq_true] at hroot
    rw [uploadSpec]
    simp only [hroot.1, hroot.2, Bool.not_true, Bool.false_eq_true, if_false]
    rw [uploadSpecLoop]
    simp only [hex, hdir, hpre, Bool.not_true, Bool.not_false, Bool.false_eq_true, if_false,
      if_true, ite_true, ite_false]
    rw [show uploadSpecLoop fs cwd (resolveP cwd rd) artifact [] = .ok ([], []) from rfl]
    rw [hjoin]
  · exact firstSegment_plain artifact relsegs ha hne hp

/-- C5 witness: the spec's example — root `/a/b`, candidate
`/a/b/dir/f.txt`, artifact `art` — yields uploadPath `art/dir/f.txt`,
whose first segment is the artifact name. -/
theorem C5_witness :
    uploadSpec ⟨[("/a/b", .dir), ("/a/b/dir/f.txt", .file)]⟩ "/" "art" "/a/b" ["/a/b/dir/f.txt"] =
      .ok ([{ absolutePath := "/a/b/dir/f.txt", uploadPath := "art/dir/f.txt" }], [])
    ∧ firstSegment "art/dir/f.txt" = "art" :=
  C5_amended_thm ⟨[("/a/b", .dir), ("/a/b/dir/f.txt", .file)]⟩ "/" "art" "/a/b" "/a/b/dir/f.txt"
    [['d', 'i', 'r'], ['f', '.', 't', 'x', 't']]
    (by decide) (by rfl) (by rfl) (by rfl) (by rfl) (by decide) (by decide)

/-- C6: for candidate files that all exist and are directories or strict
descendants of the root, `uploadSpec` succeeds, emitting one `FileSpec`
per non-directory candidate in input order (the output is the order-
preserving `filterMap` of the input) and one diagnostic debug-log line
per skipped directory, with no failure. -/
theorem C6_thm (fs : FS) (cwd artifact rd : String) (files : List String)
    (hroot : validRoot fs cwd rd = true)
    (hin : ∀ f ∈ files, FS.existsAt fs cwd f = true ∧
      (FS.isDir fs cwd f = true ∨
        strictDescendant (resolveP cwd rd) (resolveP cwd f) = true)) :
    uploadSpec fs cwd artifact rd files =
      .ok (files.filterMap (specOf fs cwd (resolveP cwd rd) artifact),
           files.filterMap (logOf fs cwd))
    ∧ (files.filterMap (specOf fs cwd (resolveP cwd rd) artifact)).length =
        (files.filter (fun f => !FS.isDir fs cwd f)).length := by
  have hclean : ∀ f ∈ files, cleanCandidate fs cwd (resolveP cwd rd) f = true := by
    intro f hf
    obtain ⟨h1, h2⟩ := hin f hf
    rw [cleanCandidate, Bool.and_eq_true, Bool.or_eq_true]
    refine ⟨h1, ?_⟩
    rcases h2 with h2 | h2
    · exact Or.inl h2
    · exact Or.inr (strictDescendant_strHasPre h2)
  constructor
  · rw [validRoot, Bool.and_eq_true] at hroot
    rw [uploadSpec]
    simp only [hroot.1, hroot.2, Bool.not_true, Bool.false_eq_true, if_false]
    exact uploadSpecLoop_clean fs cwd (resolveP cwd rd) artifact files hclean
  · exact length_filterMap_specOf fs cwd (resolveP cwd rd) artifact files

/-- C6 witness: a mixed candidate list (file, directory, nested file)
yields exactly the two file specs in input order plus one skip log. -/
theorem C6_witness :
    uploadSpec ⟨[("/w", .dir), ("/w/a.txt", .file), ("/w/d", .dir), ("/w/d/b.txt", .file)]⟩
        "/" "art" "/w" ["/w/a.txt", "/w/d", "/w/d/b.txt"] =
      .ok ([{ absolutePath := "/w/a.txt", uploadPath := "art/a.txt" },
            { absolutePath := "/w/d/b.txt", uploadPath := "art/d/b.txt" }],
           ["Removing /w/d from rawSearchResults because it is a directory"]) :=
  (C6_thm ⟨[("/w", .dir), ("/w/a.txt", .file), ("/w/d", .dir), ("/w/d/b.txt", .file)]⟩
    "/" "art" "/w" ["/w/a.txt", "/w/d", "/w/d/b.txt"] (by rfl) (by decide)).1

/-- C7: if the root does not exist or is not a directory, `uploadSpec`
fails with the corresponding `InvalidRoot` error for every candidate list
(before examining any candidate); and a nonexistent candidate fails with
`MissingFile` (the existence check runs before the directory skip, so
this applies to any candidate, preceded by well-behaved ones). -/
theorem C7_thm (fs : FS) (cwd artifact rd : String) :
    (∀ files : List String, FS.existsAt fs cwd rd = false →
      uploadSpec fs cwd artifact rd files =
        .error (.invalidRoot ("this.rootDirectory " ++ rd ++ " does not exist")))
    ∧ (∀ files : List String, FS.existsAt fs cwd rd = true → FS.isDir fs cwd rd = false →
      uploadSpec fs cwd artifact rd files =
        .error (.invalidRoot ("this.rootDirectory " ++ rd ++ " is not a valid directory")))
    ∧ (∀ (pre : List String) (f : String) (post : List String),
      validRoot fs cwd rd = true →
      (∀ g ∈ pre, cleanCandidate fs cwd (resolveP cwd rd) g = true) →
      FS.existsAt fs cwd f = false →
      uploadSpec fs cwd artifact rd (pre ++ f :: post) =
        .error (.missingFile ("File " ++ f ++ " does not exist"))) := by
  refine ⟨?_, ?_, ?_⟩
  · intro files h
    rw [uploadSpec]
    simp [h]
  · intro files h1 h2
    rw [uploadSpec]
    simp [h1, h2]
  · intro pre f post hroot hpre hf
    rw [validRoot, Bool.and_eq_true] at hroot
    rw [uploadSpec]
    simp only [hroot.1, hroot.2, Bool.not_true, Bool.false_eq_true, if_false]
    exact uploadSpecLoop_missing fs cwd (resolveP cwd rd) artifact pre f post hpre hf

/-- C7 witness: a missing candidate under a valid root fails with
`MissingFile`; a missing root fails with `InvalidRoot`; a file as root
fails with `InvalidRoot`. -/
theorem C7_witness :
    uploadSpec ⟨[("/w", .dir)]⟩ "/" "art" "/w" ["/w/missing.txt"] =
      .error (.missingFile "File /w/missing.txt does not exist")
    ∧ uploadSpec ⟨[]⟩ "/" "art" "/w" ["/w/a.txt"] =
      .error (.invalidRoot "this.rootDirectory /w does not exist")
    ∧ uploadSpec ⟨[("/w", .file)]⟩ "/" "art" "/w" ["/w/a.txt"] =
      .error (.invalidRoot "this.rootDirectory /w is not a valid directory") :=
  ⟨(C7_thm ⟨[("/w", .dir)]⟩ "/" "art" "/w").2.2 [] "/w/missing.txt" [] (by rfl) (by simp) (by rfl),
   (C7_thm ⟨[]⟩ "/" "art" "/w").1 ["/w/a.txt"] (by rfl),
   (C7_thm ⟨[("/w", .file)]⟩ "/" "art" "/w").2.1 ["/w/a.txt"] (by rfl) (by rfl)⟩

/-- C8: `upload` checks the existence of `/artifacts/<session-id>` exactly
once, creates it only when the check reports absence (so a pre-existing
directory causes no redundant create and no failure), and writes the
artifact to `/artifacts/<session-id>/<artifactName>.zip`. -/
theorem C8_thm (remote : RemoteState) (guid artifact file : String) :
    ((upload remote guid artifact file).2.filter Effect.isRemoteExists).length = 1
    ∧ (upload remote guid artifact file).1 =
        "/artifacts/" ++ guid ++ "/" ++ artifact ++ ".zip"
    ∧ (remote.dirs.contains ("/artifacts/" ++ guid) = true →
        (upload remote guid artifact file).2 =
          [.remoteExists ("/artifacts/" ++ guid),
           .remotePut ("/artifacts/" ++ guid ++ "/" ++ artifact ++ ".zip") file])
    ∧ (remote.dirs.contains ("/artifacts/" ++ guid) = false →
        (upload remote guid artifact file).2 =
          [.remoteExists ("/artifacts/" ++ guid),
           .remoteMkcol ("/artifacts/" ++ guid),
           .remotePut ("/artifacts/" ++ guid ++ "/" ++ artifact ++ ".zip") file]) := by
  cases h : remote.dirs.contains ("/artifacts/" ++ guid) with
  | true =>
    have hm : ("/artifacts/" ++ guid) ∈ remote.dirs := by simpa using h
    refine ⟨?_, ?_, ?_, ?_⟩ <;>
      simp [upload, h, hm, Effect.isRemoteExists, String.append_assoc]
  | false =>
    have hm : ¬(("/artifacts/" ++ guid) ∈ remote.dirs) := by simpa using h
    refine ⟨?_, ?_, ?_, ?_⟩ <;>
      simp [upload, h, hm, Effect.isRemoteExists, String.append_assoc]

/-- C8 witness: uploading into a session whose remote directory already
exists performs the single existence check and the write, with no
create. -/
theorem C8_witness :
    (upload ⟨["/artifacts/g1"]⟩ "g1" "art" "/tmp/a.zip").2 =
      [.remoteExists "/artifacts/g1", .remotePut "/artifacts/g1/art.zip" "/tmp/a.zip"] :=
  (C8_thm ⟨["/artifacts/g1"]⟩ "g1" "art" "/tmp/a.zip").2.2.1 (by rfl)

/-- C9 is false as stated: the session identifier is drawn once in the
constructor, not per `uploadFiles` call, so two distinct pipeline
invocations on the same client use the same staging directory `/tmp/u1`
and the same remote container `/artifacts/u1` — they do share them. -/
theorem C9_counterexample :
    stagingDir (mkClient "u1" "http://e" "art" "/work" "u" "p") = "/tmp/u1"
    ∧ remoteContainer (mkClient "u1" "http://e" "art" "/work" "u" "p") = "/artifacts/u1"
    ∧ (uploadFilesRun ⟨[("/work", .dir), ("/work/a.txt", .file)]⟩ "/" ⟨[]⟩ "<url>x</url>"
        (mkClient "u1" "http://e" "art" "/work" "u" "p") ["/work/a.txt"]).effects.head? =
        some (.mkdir "/tmp/u1/artifact-art/art")
    ∧ (uploadFilesRun ⟨[("/work", .dir), ("/work/b.txt", .file)]⟩ "/" ⟨[]⟩ "<url>y</url>"
        (mkClient "u1" "http://e" "art" "/work" "u" "p") ["/work/b.txt"]).effects.head? =
        some (.mkdir "/tmp/u1/artifact-art/art") :=
  ⟨rfl, rfl, rfl, rfl⟩

/-- C9 (amended): the session identifier is generated freshly once per
client construction; every invocation on a client uses the staging
directory `/tmp/<guid>` and remote container `/artifacts/<guid>` derived
from that construction-time identifier, so invocations on the same client
share them, while clients constructed with distinct identifiers never
share either. -/
theorem C9_amended_thm (g1 g2 e a r u p : String)
    (h1 : plainSeg g1.toList = true) (h2 : plainSeg g2.toList = true) :
    (mkClient g1 e a r u p).guid = g1
    ∧ stagingDir (mkClient g1 e a r u p) = "/tmp/" ++ g1
    ∧ remoteContainer (mkClient g1 e a r u p) = "/artifacts/" ++ g1
    ∧ (g1 ≠ g2 →
        stagingDir (mkClient g1 e a r u p) ≠ stagingDir (mkClient g2 e a r u p)
        ∧ remoteContainer (mkClient g1 e a r u p) ≠ remoteContainer (mkClient g2 e a r u p)) := by
  refine ⟨rfl, joinP_tmpdir_plain g1 h1, rfl, ?_⟩
  intro hne
  constructor
  · rw [show stagingDir (mkClient g1 e a r u p) = joinP tmpdir g1 from rfl]
    rw [show stagingDir (mkClient g2 e a r u p) = joinP tmpdir g2 from rfl]
    rw [joinP_tmpdir_plain g1 h1, joinP_tmpdir_plain g2 h2]
    intro hcon
    exact hne (str_append_cancel_left hcon)
  · intro hcon
    exact hne (str_append_cancel_left hcon)

/-- C9 witness: two clients constructed with distinct identifiers `u1`,
`u2` have distinct staging directories and remote containers. -/
theorem C9_witness :
    stagingDir (mkClient "u1" "e" "a" "/w" "u" "p") = "/tmp/u1"
    ∧ stagingDir (mkClient "u1" "e" "a" "/w" "u" "p") ≠
        stagingDir (mkClient "u2" "e" "a" "/w" "u" "p")
    ∧ remoteContainer (mkClient "u1" "e" "a" "/w" "u" "p") ≠
        remoteContainer (mkClient "u2" "e" "a" "/w" "u" "p") :=
  have h := C9_amended_thm "u1" "u2" "e" "a" "/w" "u" "p" (by decide) (by decide)
  ⟨h.2.1, (h.2.2.2 (by decide)).1, (h.2.2.2 (by decide)).2⟩

/-- C10: the client's stored headers object, holding only the
Authorization entry at construction, is used as the `Object.assign` merge
target in `shareFile`, so after any `shareFile` call the stored headers
permanently also contain the `OCS-APIRequest` and `Content-Type` entries
(and the request is sent with exactly that same stored object); a second
call leaves the same three entries in place. -/
theorem C10_thm (uuid e a r u p : String) (body body2 : String) :
    (mkClient uuid e a r u p).headers =
      [("Authorization", "Basic " ++ btoa (u ++ ":" ++ p))]
    ∧ (clientShareFile (mkClient uuid e a r u p) body).client.headers =
      [("Authorization", "Basic " ++ btoa (u ++ ":" ++ p)),
       ("OCS-APIRequest", "true"), ("Content-Type", "application/json")]
    ∧ (clientShareFile (mkClient uuid e a r u p) body).requestHeaders =
      (clientShareFile (mkClient uuid e a r u p) body).client.headers
    ∧ (clientShareFile (clientShareFile (mkClient uuid e a r u p) body).client body2).client.headers =
      [("Authorization", "Basic " ++ btoa (u ++ ":" ++ p)),
       ("OCS-APIRequest", "true"), ("Content-Type", "application/json")] :=
  ⟨rfl, rfl, rfl, rfl⟩

end NC
